import Mathlib

/-!
Verification of the DDIM sampler of `stable_diffusion.py`
(`keras_cv_attention_models/stable_diffusion/stable_diffusion.py`).

The numeric code is embedded shallowly: numpy float arrays are modelled as
lists / functions over `ℝ` (exact real arithmetic), Python integers as `ℕ`,
and a Python exception raised during schedule construction as `none` of an
`Option` result.  `x ** 0.5` on nonnegative data is `Real.sqrt`.
-/

noncomputable section

/-- The `ddim_discretize` argument of `init_ddim_sampler`: `"quad"` or the
default `"uniform"` branch. -/
inductive Discretize where
  | uniform : Discretize
  | quad : Discretize
deriving DecidableEq

/-- Entry `t` of `np.linspace(linear_start**0.5, linear_end**0.5, num_training_steps) ** 2`
(line 101 of the source): linear interpolation in sqrt-space, squared.
For `T = 1` numpy yields the single entry `linear_start`; the Lean convention
`x / 0 = 0` makes the same formula return `(sqrt ls)^2` at `t = 0`. -/
def betaLin (ls le : ℝ) (T : ℕ) (t : ℕ) : ℝ :=
  (Real.sqrt ls + ((t : ℝ) / ((T : ℝ) - 1)) * (Real.sqrt le - Real.sqrt ls)) ^ 2

/-- Entry `t` of `np.cumprod(1.0 - beta)` (line 102 of the source):
`alpha_bar[t] = ∏_{k ≤ t} (1 - beta[k])`. -/
def alphaBar (ls le : ℝ) (T : ℕ) (t : ℕ) : ℝ :=
  ∏ k in Finset.range (t + 1), (1 - betaLin ls le T k)

/-- Number of elements of `np.arange(0, stop, step)` for a positive `step`:
`⌈stop / step⌉`. -/
def arangeCount (stop step : ℕ) : ℕ := (stop + step - 1) / step

/-- Lines 98-99 of the source: `interval = num_training_steps // num_steps;`
`time_steps = np.arange(0, num_training_steps, interval) + 1`. -/
def uniformTimeSteps (S T : ℕ) : List ℕ :=
  (List.range (arangeCount T (T / S))).map (fun i => i * (T / S) + 1)

/-- Line 96 of the source: `((np.linspace(0, np.sqrt(num_training_steps * 0.8),`
`num_steps)) ** 2).astype(int) + 1`.  Entry `i` of the linspace is
`i * sqrt(T * 0.8) / (num_steps - 1)`; `astype(int)` truncates the nonnegative
square toward zero, i.e. takes the floor.  `np.linspace(0, x, 1) = [0]`. -/
def quadTimeSteps (S T : ℕ) : List ℕ :=
  if S = 1 then [1]
  else (List.range S).map
    (fun (i : ℕ) => (⌊((i : ℝ) * Real.sqrt ((T : ℝ) * 0.8) / ((S : ℝ) - 1)) ^ 2⌋).toNat + 1)

/-- The six arrays stored by `init_ddim_sampler` (lines 108-109 of the source). -/
structure Schedule where
  time_steps : List ℕ
  ddim_alpha : List ℝ
  ddim_alpha_prev : List ℝ
  ddim_sigma : List ℝ
  ddim_alpha_sqrt : List ℝ
  ddim_sqrt_one_minus_alpha : List ℝ

/-- Entry `i` of line 106 of the source:
`ddim_eta * ((1 - alpha_prev) / (1 - alpha) * (1 - alpha / alpha_prev)) ** 0.5`. -/
def ddimSigmaVal (eta a aprev : ℝ) : ℝ :=
  eta * Real.sqrt ((1 - aprev) / (1 - a) * (1 - a / aprev))

/-- Lines 101-109 of the source given an already-computed `time_steps` list:
`ddim_alpha = alpha_bar[time_steps]`,
`ddim_alpha_prev = np.concatenate([alpha_bar[:1], alpha_bar[time_steps[:-1]]])`,
`ddim_sigma`, `ddim_alpha_sqrt = ddim_alpha ** 0.5`,
`ddim_sqrt_one_minus_alpha = (1 - ddim_alpha) ** 0.5`.
Fancy indexing `alpha_bar[time_steps]` raises `IndexError` when an index
reaches `num_training_steps` (the length of `alpha_bar`); that exception is
modelled as `none`. -/
def mkSchedule (T : ℕ) (ls le eta : ℝ) (ts : List ℕ) : Option Schedule :=
  if ∀ t ∈ ts, t < T then
    some
      { time_steps := ts
        ddim_alpha := ts.map (alphaBar ls le T)
        ddim_alpha_prev := alphaBar ls le T 0 :: ts.dropLast.map (alphaBar ls le T)
        ddim_sigma := List.zipWith (fun a p => ddimSigmaVal eta a p)
          (ts.map (alphaBar ls le T)) (alphaBar ls le T 0 :: ts.dropLast.map (alphaBar ls le T))
        ddim_alpha_sqrt := (ts.map (alphaBar ls le T)).map Real.sqrt
        ddim_sqrt_one_minus_alpha := (ts.map (alphaBar ls le T)).map (fun a => Real.sqrt (1 - a)) }
  else none

/-- The whole of `init_ddim_sampler` (lines 92-109 of the source).  In the
uniform branch, `num_steps = 0` raises `ZeroDivisionError` at
`num_training_steps // num_steps`, and a zero `interval` (i.e.
`num_training_steps < num_steps`, or `num_training_steps = 0`) makes
`np.arange(0, stop, 0)` raise; both are modelled as `none`. -/
def init_ddim_sampler (S T : ℕ) (mode : Discretize) (ls le eta : ℝ) : Option Schedule :=
  match mode with
  | .uniform => if T / S = 0 then none else mkSchedule T ls le eta (uniformTimeSteps S T)
  | .quad => mkSchedule T ls le eta (quadTimeSteps S T)

/-! ### Destructor lemmas for the builder -/

theorem mkSchedule_some_iff (T : ℕ) (ls le eta : ℝ) (ts : List ℕ) (s : Schedule)
    (h : mkSchedule T ls le eta ts = some s) :
    (∀ t ∈ ts, t < T) ∧
    s.time_steps = ts ∧
    s.ddim_alpha = ts.map (alphaBar ls le T) ∧
    s.ddim_alpha_prev = alphaBar ls le T 0 :: ts.dropLast.map (alphaBar ls le T) ∧
    s.ddim_sigma = List.zipWith (fun a p => ddimSigmaVal eta a p)
      (ts.map (alphaBar ls le T)) (alphaBar ls le T 0 :: ts.dropLast.map (alphaBar ls le T)) ∧
    s.ddim_alpha_sqrt = (ts.map (alphaBar ls le T)).map Real.sqrt ∧
    s.ddim_sqrt_one_minus_alpha = (ts.map (alphaBar ls le T)).map (fun a => Real.sqrt (1 - a)) := by
  by_cases hb : ∀ t ∈ ts, t < T
  · unfold mkSchedule at h
    rw [if_pos hb] at h
    injection h with h
    subst h
    exact ⟨hb, rfl, rfl, rfl, rfl, rfl, rfl⟩
  · unfold mkSchedule at h
    rw [if_neg hb] at h
    cases h

theorem init_uniform_some (S T : ℕ) (ls le eta : ℝ) (s : Schedule)
    (h : init_ddim_sampler S T .uniform ls le eta = some s) :
    T / S ≠ 0 ∧ mkSchedule T ls le eta (uniformTimeSteps S T) = some s := by
  unfold init_ddim_sampler at h
  by_cases h1 : T / S = 0
  · rw [if_pos h1] at h
    cases h
  · rw [if_neg h1] at h
    exact ⟨h1, h⟩

theorem init_some_mkSchedule (S T : ℕ) (mode : Discretize) (ls le eta : ℝ) (s : Schedule)
    (h : init_ddim_sampler S T mode ls le eta = some s) :
    ∃ ts, mkSchedule T ls le eta ts = some s := by
  cases mode with
  | uniform => exact ⟨_, (init_uniform_some S T ls le eta s h).2⟩
  | quad => exact ⟨_, h⟩

/-! ### Arithmetic facts about the uniform time-step count -/

theorem arangeCount_ge (S T : ℕ) (hS : 0 < S) (hST : S ≤ T) :
    S ≤ arangeCount T (T / S) := by
  have hq : 0 < T / S := (Nat.one_le_div_iff hS).2 hST
  unfold arangeCount
  rw [Nat.le_div_iff_mul_le hq]
  have hmul : T / S * S ≤ T := Nat.div_mul_le_self T S
  have hcomm : S * (T / S) = T / S * S := Nat.mul_comm _ _
  rw [hcomm]
  omega

theorem arangeCount_eq_of_dvd (S T : ℕ) (hS : 0 < S) (hST : S ≤ T) (hdvd : T % S = 0) :
    arangeCount T (T / S) = S := by
  have hq : 0 < T / S := (Nat.one_le_div_iff hS).2 hST
  have hge := arangeCount_ge S T hS hST
  have hle : arangeCount T (T / S) ≤ S := by
    unfold arangeCount
    rw [Nat.div_le_iff_le_mul_add_pred hq]
    have hdm : S * (T / S) + T % S = T := Nat.div_add_mod T S
    have hcomm : S * (T / S) = T / S * S := Nat.mul_comm _ _
    rw [hcomm] at hdm
    generalize T / S = q at *
    generalize q * S = P at *
    omega
  omega

theorem arangeCount_gt_of_not_dvd (S T : ℕ) (hS : 0 < S) (hST : S ≤ T) (hdvd : T % S ≠ 0) :
    S < arangeCount T (T / S) := by
  have hq : 0 < T / S := (Nat.one_le_div_iff hS).2 hST
  have hlt : S + 1 ≤ arangeCount T (T / S) := by
    unfold arangeCount
    rw [Nat.le_div_iff_mul_le hq]
    have hdm : S * (T / S) + T % S = T := Nat.div_add_mod T S
    rw [Nat.succ_mul]
    have hcomm : S * (T / S) = T / S * S := Nat.mul_comm _ _
    rw [hcomm] at hdm
    generalize T / S = q at *
    rw [Nat.mul_comm S q]
    generalize q * S = P at *
    omega
  omega

/-! ### C5: no InvalidConfig validation in the builder -/

/-- C5 (corrected): the uniform-mode builder does crash (ZeroDivisionError from
`num_training_steps // num_steps` or from `np.arange` with step 0) when
`num_steps = 0` or `num_training_steps < num_steps`, but it performs no range
validation on `linear_start` / `linear_end`: those may lie outside `(0,1)` and
a schedule is still returned. -/
theorem C5_no_invalid_config_validation :
    (∀ (T : ℕ) (ls le eta : ℝ), init_ddim_sampler 0 T .uniform ls le eta = none) ∧
    (∀ (S T : ℕ) (ls le eta : ℝ), T < S → init_ddim_sampler S T .uniform ls le eta = none) := by
  constructor
  · intro T ls le eta
    simp [init_ddim_sampler]
  · intro S T ls le eta h
    simp [init_ddim_sampler, Nat.div_eq_of_lt h]

/-- Witness for C5: concrete invalid step counts make the builder fail. -/
theorem C5_no_invalid_config_validation_witness :
    init_ddim_sampler 0 7 .uniform (1/4) (1/4) 0 = none ∧
    init_ddim_sampler 5 3 .uniform (1/4) (1/4) 0 = none :=
  ⟨C5_no_invalid_config_validation.1 7 (1/4) (1/4) 0,
   C5_no_invalid_config_validation.2 5 3 (1/4) (1/4) 0 (by norm_num)⟩

/-- Counterexample to C5 as stated: `linear_start = 2` lies outside `(0,1)`,
so the claim demands the builder raise, yet a schedule is produced. -/
theorem C5_invalid_linear_start_counterexample :
    ¬ ((0:ℝ) < 2 ∧ (2:ℝ) < 1) ∧
    (init_ddim_sampler 50 1000 .uniform 2 (1/2) 0).isSome = true :=
  ⟨by norm_num, rfl⟩

/-! ### C3: uniform time steps and sequence lengths -/

/-- C3 (corrected): with uniform discretization `time_steps[i] = i * (T / S) + 1`
for every index of the list, all six schedule sequences share the length
`⌈T / (T / S)⌉` of `np.arange(0, T, T // S)`, and that length equals
`num_steps` exactly when `num_steps` divides `num_training_steps`; otherwise
it strictly exceeds `num_steps`. -/
theorem C3_uniform_time_steps (S T : ℕ) (ls le eta : ℝ) (s : Schedule)
    (hS : 0 < S) (hST : S ≤ T)
    (h : init_ddim_sampler S T .uniform ls le eta = some s) :
    (∀ i, i < s.time_steps.length → s.time_steps.get? i = some (i * (T / S) + 1)) ∧
    s.time_steps.length = arangeCount T (T / S) ∧
    (s.ddim_alpha.length = s.time_steps.length ∧
     s.ddim_alpha_prev.length = s.time_steps.length ∧
     s.ddim_sigma.length = s.time_steps.length ∧
     s.ddim_alpha_sqrt.length = s.time_steps.length ∧
     s.ddim_sqrt_one_minus_alpha.length = s.time_steps.length) ∧
    (T % S = 0 → s.time_steps.length = S) ∧
    (T % S ≠ 0 → S < s.time_steps.length) := by
  obtain ⟨hq, hmk⟩ := init_uniform_some S T ls le eta s h
  obtain ⟨hb, hts, halpha, hprev, hsigma, hsqrt, hsoma⟩ :=
    mkSchedule_some_iff T ls le eta (uniformTimeSteps S T) s hmk
  have hlen : s.time_steps.length = arangeCount T (T / S) := by
    rw [hts]
    simp [uniformTimeSteps]
  have hlenpos : 1 ≤ s.time_steps.length := by
    rw [hlen]
    calc 1 ≤ S := hS
      _ ≤ arangeCount T (T / S) := arangeCount_ge S T hS hST
  refine ⟨?_, hlen, ⟨?_, ?_, ?_, ?_, ?_⟩, ?_, ?_⟩
  · intro i hi
    rw [hts] at hi ⊢
    simp only [uniformTimeSteps, List.length_map, List.length_range] at hi
    rw [uniformTimeSteps, List.get?_map, List.get?_range hi]
    rfl
  · rw [halpha, hts, List.length_map]
  · rw [hprev, hts, List.length_cons, List.length_map, List.length_dropLast]
    rw [hts] at hlenpos
    omega
  · rw [hsigma, hts, List.length_zipWith, List.length_map, List.length_cons,
      List.length_map, List.length_dropLast]
    rw [hts] at hlenpos
    omega
  · rw [hsqrt, hts, List.length_map, List.length_map]
  · rw [hsoma, hts, List.length_map, List.length_map]
  · intro hdvd
    rw [hlen]
    exact arangeCount_eq_of_dvd S T hS hST hdvd
  · intro hdvd
    rw [hlen]
    exact arangeCount_gt_of_not_dvd S T hS hST hdvd

/-- Witness for C3: the default-style divisible configuration `S = 2, T = 10`. -/
theorem C3_uniform_time_steps_witness :
    ∃ s, init_ddim_sampler 2 10 .uniform (1/4) (1/4) 0 = some s ∧
      s.time_steps.length = arangeCount 10 (10 / 2) ∧
      (10 % 2 = 0 → s.time_steps.length = 2) := by
  obtain ⟨s, hs⟩ : ∃ s, init_ddim_sampler 2 10 .uniform (1/4) (1/4) 0 = some s := ⟨_, rfl⟩
  have h := C3_uniform_time_steps 2 10 (1/4) (1/4) 0 s (by norm_num) (by norm_num) hs
  exact ⟨s, hs, h.2.1, h.2.2.2.1⟩

/-- Counterexample to C3 as stated: for `S = 3, T = 11` (not divisible) the
built `time_steps` has 4 entries, not `num_steps = 3`. -/
theorem C3_length_counterexample :
    ∃ s, init_ddim_sampler 3 11 .uniform (1/4) (1/4) 0 = some s ∧
      s.time_steps.length = 4 ∧ s.time_steps.length ≠ 3 := by
  refine ⟨_, rfl, ?_, ?_⟩ <;> decide

/-! ### Real-arithmetic facts about the beta / alpha_bar schedule -/

theorem sqrt_unit {x : ℝ} (h0 : 0 < x) (h1 : x < 1) :
    0 < Real.sqrt x ∧ Real.sqrt x < 1 := by
  refine ⟨Real.sqrt_pos.2 h0, ?_⟩
  calc Real.sqrt x < Real.sqrt 1 := Real.sqrt_lt_sqrt h0.le h1
    _ = 1 := Real.sqrt_one

theorem interp_sq_bounds {a b c : ℝ} (ha0 : 0 < a) (ha1 : a < 1) (hb0 : 0 < b) (hb1 : b < 1)
    (hc0 : 0 ≤ c) (hc1 : c ≤ 1) :
    0 < (a + c * (b - a)) ^ 2 ∧ (a + c * (b - a)) ^ 2 < 1 := by
  have h1c : 0 ≤ 1 - c := by linarith
  have hv0 : 0 < a + c * (b - a) := by
    rcases le_total a b with hab | hba
    · nlinarith [mul_nonneg hc0 (sub_nonneg.2 hab)]
    · nlinarith [mul_nonneg h1c (sub_nonneg.2 hba)]
  have hv1 : a + c * (b - a) < 1 := by
    rcases le_total a b with hab | hba
    · nlinarith [mul_nonneg h1c (sub_nonneg.2 hab)]
    · nlinarith [mul_nonneg hc0 (sub_nonneg.2 hba)]
  exact ⟨pow_pos hv0 2, by nlinarith⟩

theorem frac_bounds (T t : ℕ) (ht : t < T) :
    0 ≤ (t : ℝ) / ((T : ℝ) - 1) ∧ (t : ℝ) / ((T : ℝ) - 1) ≤ 1 := by
  have hT1 : (1 : ℝ) ≤ (T : ℝ) := by exact_mod_cast Nat.one_le_iff_ne_zero.2 (by omega)
  constructor
  · exact div_nonneg (Nat.cast_nonneg t) (by linarith)
  · rcases Nat.lt_or_ge T 2 with h2 | h2
    · have ht0 : t = 0 := by omega
      subst ht0
      simp
    · have hTR : (2 : ℝ) ≤ (T : ℝ) := by exact_mod_cast h2
      have htT : (t : ℝ) + 1 ≤ (T : ℝ) := by exact_mod_cast ht
      rw [div_le_one (by linarith)]
      linarith

theorem betaLin_bounds {ls le : ℝ} (hls0 : 0 < ls) (hls1 : ls < 1)
    (hle0 : 0 < le) (hle1 : le < 1) (T t : ℕ) (ht : t < T) :
    0 < betaLin ls le T t ∧ betaLin ls le T t < 1 := by
  obtain ⟨ha0, ha1⟩ := sqrt_unit hls0 hls1
  obtain ⟨hb0, hb1⟩ := sqrt_unit hle0 hle1
  obtain ⟨hc0, hc1⟩ := frac_bounds T t ht
  exact interp_sq_bounds ha0 ha1 hb0 hb1 hc0 hc1

theorem alphaBar_succ (ls le : ℝ) (T t : ℕ) :
    alphaBar ls le T (t + 1) = alphaBar ls le T t * (1 - betaLin ls le T (t + 1)) :=
  Finset.prod_range_succ _ _

theorem alphaBar_bounds {ls le : ℝ} (hls0 : 0 < ls) (hls1 : ls < 1)
    (hle0 : 0 < le) (hle1 : le < 1) (T : ℕ) :
    ∀ t, t < T → 0 < alphaBar ls le T t ∧ alphaBar ls le T t < 1 := by
  intro t
  induction t with
  | zero =>
    intro ht
    have hb := betaLin_bounds hls0 hls1 hle0 hle1 T 0 ht
    unfold alphaBar
    rw [Finset.prod_range_one]
    constructor <;> linarith [hb.1, hb.2]
  | succ n ih =>
    intro ht
    have hn := ih (by omega)
    have hb := betaLin_bounds hls0 hls1 hle0 hle1 T (n + 1) ht
    rw [alphaBar_succ]
    constructor
    · exact mul_pos hn.1 (by linarith)
    · nlinarith [hn.1, hn.2, hb.1, hb.2]

theorem alphaBar_strictAnti {ls le : ℝ} (hls0 : 0 < ls) (hls1 : ls < 1)
    (hle0 : 0 < le) (hle1 : le < 1) (T : ℕ) :
    ∀ t t', t < t' → t' < T → alphaBar ls le T t' < alphaBar ls le T t := by
  intro t t'
  induction t' with
  | zero => omega
  | succ n ih =>
    intro htt ht
    have hstep : alphaBar ls le T (n + 1) < alphaBar ls le T n := by
      rw [alphaBar_succ]
      have hn := alphaBar_bounds hls0 hls1 hle0 hle1 T n (by omega)
      have hb := betaLin_bounds hls0 hls1 hle0 hle1 T (n + 1) ht
      exact mul_lt_of_lt_one_right hn.1 (by linarith)
    rcases Nat.lt_or_ge t n with hlt | hge
    · exact lt_trans hstep (ih hlt (by omega))
    · have ht0 : t = n := by omega
      subst ht0
      exact hstep

/-! ### C2: alpha in (0,1] and strictly decreasing -/

/-- C2 (corrected, uniform mode): for every valid uniform configuration whose
construction succeeds, every `ddim_alpha` entry lies in `(0,1]` and the
sequence is strictly decreasing in step index. -/
theorem C2_uniform_alpha_monotone (S T : ℕ) (ls le eta : ℝ) (s : Schedule)
    (hS : 0 < S) (hST : S ≤ T)
    (hls0 : 0 < ls) (hls1 : ls < 1) (hle0 : 0 < le) (hle1 : le < 1)
    (h : init_ddim_sampler S T .uniform ls le eta = some s) :
    (∀ a ∈ s.ddim_alpha, 0 < a ∧ a ≤ 1) ∧
    s.ddim_alpha.Pairwise (fun a b => b < a) := by
  obtain ⟨hq, hmk⟩ := init_uniform_some S T ls le eta s h
  obtain ⟨hb, hts, halpha, -, -, -, -⟩ :=
    mkSchedule_some_iff T ls le eta (uniformTimeSteps S T) s hmk
  constructor
  · intro a ha
    rw [halpha] at ha
    obtain ⟨t, htmem, rfl⟩ := List.mem_map.1 ha
    have hbd := alphaBar_bounds hls0 hls1 hle0 hle1 T t (hb t htmem)
    exact ⟨hbd.1, hbd.2.le⟩
  · rw [halpha]
    unfold uniformTimeSteps
    rw [List.map_map, List.pairwise_map]
    refine (List.pairwise_lt_range _).imp_of_mem ?_
    intro i j hi hj hij
    have hmemj : j * (T / S) + 1 ∈ uniformTimeSteps S T := by
      unfold uniformTimeSteps
      exact List.mem_map.2 ⟨j, hj, rfl⟩
    have hjT : j * (T / S) + 1 < T := hb _ hmemj
    have hqpos : 0 < T / S := Nat.pos_of_ne_zero hq
    have hgij : i * (T / S) + 1 < j * (T / S) + 1 := by
      have := (Nat.mul_lt_mul_right hqpos).2 hij
      omega
    exact alphaBar_strictAnti hls0 hls1 hle0 hle1 T _ _ hgij hjT

/-- Witness for C2: the valid uniform configuration `S = 1, T = 2`. -/
theorem C2_uniform_alpha_monotone_witness :
    ∃ s, init_ddim_sampler 1 2 .uniform (1/4) (1/4) 0 = some s ∧
      (∀ a ∈ s.ddim_alpha, 0 < a ∧ a ≤ 1) ∧
      s.ddim_alpha.Pairwise (fun a b => b < a) := by
  obtain ⟨s, hs⟩ : ∃ s, init_ddim_sampler 1 2 .uniform (1/4) (1/4) 0 = some s := ⟨_, rfl⟩
  have h := C2_uniform_alpha_monotone 1 2 (1/4) (1/4) 0 s (by norm_num) (by norm_num)
    (by norm_num) (by norm_num) (by norm_num) (by norm_num) hs
  exact ⟨s, hs, h.1, h.2⟩

/-- Counterexample to C2 as stated: the valid quadratic configuration
`S = 4, T = 10, ls = le = 1/4` produces `time_steps = [1, 1, 4, 9]` — the two
leading entries coincide, so `ddim_alpha` is not strictly decreasing. -/
theorem C2_quad_counterexample :
    (0 < 4 ∧ 4 ≤ 10 ∧ (0:ℝ) < 1/4 ∧ (1/4:ℝ) < 1) ∧
    ∃ s, init_ddim_sampler 4 10 .quad (1/4) (1/4) 0 = some s ∧
      ¬ s.ddim_alpha.Pairwise (fun a b => b < a) := by
  have key : ∀ i : ℕ,
      (⌊((i : ℝ) * Real.sqrt ((((10:ℕ)) : ℝ) * 0.8) / ((((4:ℕ)) : ℝ) - 1)) ^ 2⌋).toNat + 1
      = (⌊((i : ℝ) ^ 2 * 8 / 9)⌋).toNat + 1 := by
    intro i
    have hval : ((i : ℝ) * Real.sqrt ((((10:ℕ)) : ℝ) * 0.8) / ((((4:ℕ)) : ℝ) - 1)) ^ 2
        = (i : ℝ) ^ 2 * 8 / 9 := by
      rw [div_pow, mul_pow, show ((((10:ℕ)) : ℝ) * 0.8) = 8 by norm_num,
        Real.sq_sqrt (by norm_num : (0:ℝ) ≤ 8)]
      norm_num
    rw [hval]
  have hts : quadTimeSteps 4 10 = [1, 1, 4, 9] := by
    unfold quadTimeSteps
    rw [if_neg (by norm_num)]
    rw [show List.range 4 = [0, 1, 2, 3] from rfl]
    simp only [List.map_cons, List.map_nil, key]
    rw [show ⌊((((0:ℕ)) : ℝ) ^ 2 * 8 / 9)⌋ = 0 from by norm_num,
      show ⌊((((1:ℕ)) : ℝ) ^ 2 * 8 / 9)⌋ = 0 from Int.floor_eq_iff.2 (by norm_num),
      show ⌊((((2:ℕ)) : ℝ) ^ 2 * 8 / 9)⌋ = 3 from Int.floor_eq_iff.2 (by norm_num),
      show ⌊((((3:ℕ)) : ℝ) ^ 2 * 8 / 9)⌋ = 8 from Int.floor_eq_iff.2 (by norm_num)]
    decide
  have hinit : init_ddim_sampler 4 10 .quad (1/4) (1/4) 0
      = mkSchedule 10 (1/4) (1/4) 0 [1, 1, 4, 9] := by
    unfold init_ddim_sampler
    rw [hts]
  refine ⟨by norm_num, ?_⟩
  rw [hinit]
  unfold mkSchedule
  rw [if_pos (by decide)]
  refine ⟨_, rfl, ?_⟩
  intro hp
  simp only [List.map_cons] at hp
  have h1 := (List.pairwise_cons.1 hp).1 (alphaBar (1/4) (1/4) 10 1) (by simp)
  exact lt_irrefl _ h1

/-! ### C7: the alpha_prev boundary entry -/

/-- A get? entry of `dropLast` agrees with the original list inside bounds. -/
theorem dropLast_get?_eq {α : Type} (l : List α) (j : ℕ) (hj : j < l.dropLast.length) :
    l.dropLast.get? j = l.get? j := by
  rw [List.get?_eq_getElem?, List.get?_eq_getElem?]
  rw [List.getElem?_eq_getElem hj, List.getElem?_eq_getElem (by simp at hj; omega)]
  exact congrArg some (List.getElem_dropLast l j hj)

/-- C7 (corrected): in every built schedule, `ddim_alpha_prev[0]` equals
`alpha_bar[0] = 1 - beta[0]` — the first cumulative product, not exactly 1 —
and `ddim_alpha_prev[i] = alpha_bar[time_steps[i-1]]` for `0 < i` within
bounds. -/
theorem C7_alpha_prev_boundary (S T : ℕ) (mode : Discretize) (ls le eta : ℝ) (s : Schedule)
    (h : init_ddim_sampler S T mode ls le eta = some s) :
    s.ddim_alpha_prev.get? 0 = some (alphaBar ls le T 0) ∧
    alphaBar ls le T 0 = 1 - betaLin ls le T 0 ∧
    (∀ i, 0 < i → i < s.ddim_alpha_prev.length →
      s.ddim_alpha_prev.get? i = (s.time_steps.get? (i - 1)).map (alphaBar ls le T)) := by
  obtain ⟨ts, hmk⟩ := init_some_mkSchedule S T mode ls le eta s h
  obtain ⟨hb, hts, -, hprev, -, -, -⟩ := mkSchedule_some_iff T ls le eta ts s hmk
  subst hts
  refine ⟨?_, ?_, ?_⟩
  · rw [hprev]
    rfl
  · unfold alphaBar
    rw [Finset.prod_range_one]
  · intro i h0 hi
    rcases i with _ | j
    · omega
    rw [hprev] at hi ⊢
    rw [List.get?_cons_succ]
    simp only [List.length_cons, List.length_map] at hi
    have hj : j < s.time_steps.dropLast.length := by omega
    rw [List.get?_map, dropLast_get?_eq _ _ hj]
    rfl

/-- Witness for C7: concrete uniform configuration `S = 2, T = 4`. -/
theorem C7_alpha_prev_boundary_witness :
    ∃ s, init_ddim_sampler 2 4 .uniform (1/4) (1/4) 0 = some s ∧
      s.ddim_alpha_prev.get? 0 = some (alphaBar (1/4) (1/4) 4 0) ∧
      alphaBar (1/4) (1/4) 4 0 = 1 - betaLin (1/4) (1/4) 4 0 := by
  obtain ⟨s, hs⟩ : ∃ s, init_ddim_sampler 2 4 .uniform (1/4) (1/4) 0 = some s := ⟨_, rfl⟩
  have h := C7_alpha_prev_boundary 2 4 .uniform (1/4) (1/4) 0 s hs
  exact ⟨s, hs, h.1, h.2.1⟩

/-- Counterexample to C7 as stated: with `ls = le = 1/4`, the built
`ddim_alpha_prev[0]` is `1 - 1/4 = 3/4`, not 1. -/
theorem C7_alpha_prev_counterexample :
    ∃ s, init_ddim_sampler 2 4 .uniform (1/4) (1/4) 0 = some s ∧
      s.ddim_alpha_prev.get? 0 ≠ some 1 := by
  refine ⟨_, rfl, ?_⟩
  show some (alphaBar (1/4) (1/4) 4 0) ≠ some 1
  have hab : alphaBar (1/4) (1/4) 4 0 = 3/4 := by
    unfold alphaBar betaLin
    rw [Finset.prod_range_one]
    norm_num
  rw [hab]
  norm_num

/-! ### C9: the image-to-image start index -/

/-- Line 242 of the source: `timestep_start = int(strength * self.num_steps)`.
Python `int()` truncates toward zero, which is the floor for the nonnegative
strengths the claim concerns. -/
def timestepStart (strength : ℚ) (S : ℕ) : ℕ := (⌊strength * (S : ℚ)⌋).toNat

/-- C9 (corrected): for every strength in `[0, 1)` the derived start index is
a valid index into `ddim_alpha_sqrt` and `ddim_sqrt_one_minus_alpha`; at
`strength = 1` the index equals `num_steps` and falls out of range whenever
`num_steps` divides `num_training_steps`. -/
theorem C9_strength_index_in_range (strength : ℚ) (S T : ℕ) (ls le eta : ℝ) (s : Schedule)
    (h0 : 0 ≤ strength) (h1 : strength < 1) (hS : 0 < S) (hST : S ≤ T)
    (h : init_ddim_sampler S T .uniform ls le eta = some s) :
    timestepStart strength S < s.ddim_alpha_sqrt.length ∧
    timestepStart strength S < s.ddim_sqrt_one_minus_alpha.length := by
  obtain ⟨hq, hmk⟩ := init_uniform_some S T ls le eta s h
  obtain ⟨-, -, -, -, -, hsqrt, hsoma⟩ :=
    mkSchedule_some_iff T ls le eta (uniformTimeSteps S T) s hmk
  have hlen1 : s.ddim_alpha_sqrt.length = arangeCount T (T / S) := by
    rw [hsqrt]
    simp [uniformTimeSteps]
  have hlen2 : s.ddim_sqrt_one_minus_alpha.length = arangeCount T (T / S) := by
    rw [hsoma]
    simp [uniformTimeSteps]
  have hge : S ≤ arangeCount T (T / S) := arangeCount_ge S T hS hST
  have hstart : timestepStart strength S < S := by
    unfold timestepStart
    have hSpos : (0:ℚ) < (S:ℚ) := by exact_mod_cast hS
    have hfl : ⌊strength * (S:ℚ)⌋ < (S:ℤ) := by
      rw [Int.floor_lt]
      push_cast
      calc strength * (S:ℚ) < 1 * (S:ℚ) := by exact mul_lt_mul_of_pos_right h1 hSpos
        _ = (S:ℚ) := one_mul _
    omega
  omega

/-- Witness for C9: `strength = 1/2` with the default `S = 50, T = 1000`. -/
theorem C9_strength_index_in_range_witness :
    ∃ s, init_ddim_sampler 50 1000 .uniform (1/4) (1/4) 0 = some s ∧
      timestepStart (1/2) 50 < s.ddim_alpha_sqrt.length := by
  obtain ⟨s, hs⟩ : ∃ s, init_ddim_sampler 50 1000 .uniform (1/4) (1/4) 0 = some s := ⟨_, rfl⟩
  exact ⟨s, hs, (C9_strength_index_in_range (1/2) 50 1000 (1/4) (1/4) 0 s
    (by norm_num) (by norm_num) (by norm_num) (by norm_num) hs).1⟩

/-- Counterexample to C9 as stated: `strength = 1` lies in `[0,1]` but yields
start index 50 into the length-50 `ddim_alpha_sqrt` of the default
configuration — `numpy` raises IndexError there. -/
theorem C9_strength_one_counterexample :
    ∃ s, init_ddim_sampler 50 1000 .uniform (1/4) (1/4) 0 = some s ∧
      timestepStart 1 50 = 50 ∧ s.ddim_alpha_sqrt.length = 50 ∧
      ¬ timestepStart 1 50 < s.ddim_alpha_sqrt.length := by
  obtain ⟨s, hs⟩ : ∃ s, init_ddim_sampler 50 1000 .uniform (1/4) (1/4) 0 = some s := ⟨_, rfl⟩
  have hlen : s.ddim_alpha_sqrt.length = 50 := by
    obtain ⟨hq, hmk⟩ := init_uniform_some _ _ _ _ _ _ hs
    obtain ⟨-, -, -, -, -, hsqrt, -⟩ := mkSchedule_some_iff _ _ _ _ _ _ hmk
    rw [hsqrt]
    simp [uniformTimeSteps, arangeCount]
  have htstart : timestepStart 1 50 = 50 := by
    unfold timestepStart
    rw [show ⌊(1:ℚ) * ((50:ℕ):ℚ)⌋ = 50 from by norm_num]
    rfl
  exact ⟨s, hs, htstart, hlen, by omega⟩

/-! ### The sampling loop of `text_to_image` (lines 157-183)

Tensors are elementwise: a latent is one real per batch index (spatial and
channel coordinates behave identically under every operation of the loop, so
one representative coordinate suffices).  The classifier-free-guided noise of
lines 160-167 (unet forward on the duplicated batch, split, and
`e_t_uncond + (e_t_cond - e_t_uncond) * uncond_scale`) is abstracted as an
oracle `eps` of the step index and current latent, identical between compared
runs; `gauss k` is the step-`k` output of `gaussian_sample`. -/

/-- The five schedule arrays as read by the loop body. -/
structure StepArrays where
  alpha : ℕ → ℝ
  alpha_prev : ℕ → ℝ
  sigma : ℕ → ℝ
  alpha_sqrt : ℕ → ℝ
  sqrt_one_minus_alpha : ℕ → ℝ

/-- Lines 170-176 of the source on one tensor element:
`pred_x0 = (xt - e_t * sqrt_one_minus_alpha[cur]) / (alpha[cur] ** 0.5)`,
`dir_xt = e_t * ((1 - alpha_prev - sigma^2) ** 0.5)`,
`xt = (alpha_prev ** 0.5) * pred_x0 + dir_xt + sigma * temperature * noise`. -/
def get_x_prev_and_pred_x0 (alpha alpha_prev sigma sqrt1ma temperature xt e_t noise : ℝ) : ℝ :=
  Real.sqrt alpha_prev * ((xt - e_t * sqrt1ma) / Real.sqrt alpha)
    + e_t * Real.sqrt (1 - alpha_prev - sigma ^ 2)
    + sigma * temperature * noise

/-- Lines 174-175: `noise = 0.0 if ddim_sigma == 0 else gaussian_sample(...)`,
where `repeat_noise` draws with leading dimension 1 so every batch element
receives the same draw (`gauss 0`). -/
def p_sample_step (b : ℕ) (A : StepArrays) (cur : ℕ) (repeat_noise : Bool)
    (temperature : ℝ) (xt e_t gauss : Fin (b + 1) → ℝ) : Fin (b + 1) → ℝ :=
  fun j =>
    get_x_prev_and_pred_x0 (A.alpha cur) (A.alpha_prev cur) (A.sigma cur)
      (A.sqrt_one_minus_alpha cur) temperature (xt j) (e_t j)
      (if A.sigma cur = 0 then 0 else if repeat_noise then gauss 0 else gauss j)

/-- The `[in_paint parameters]` of `text_to_image`:
`inpaint_orign_image_latents`, `inpaint_orign_noise`, `inpaint_mask`. -/
structure InpaintCtx (b : ℕ) where
  orig_latents : Fin (b + 1) → ℝ
  orig_noise : Fin (b + 1) → ℝ
  mask : Fin (b + 1) → ℝ

/-- Lines 178-180: `orig_t = ddim_alpha_sqrt[cur] * latents + `
`ddim_sqrt_one_minus_alpha[cur] * noise; xt = orig_t * mask + xt * (1 - mask)`. -/
def inpaint_blend (b : ℕ) (A : StepArrays) (cur : ℕ) (ctx : InpaintCtx b)
    (xt : Fin (b + 1) → ℝ) : Fin (b + 1) → ℝ :=
  fun j =>
    (A.alpha_sqrt cur * ctx.orig_latents j + A.sqrt_one_minus_alpha cur * ctx.orig_noise j)
        * ctx.mask j
      + xt j * (1 - ctx.mask j)

/-- Lines 159-183: `for cur_step in range(num_steps - init_step)[::-1]`,
each iteration computing the guided noise, the DDIM step, and (in inpaint
mode) the mask blend.  The first argument of the recursion is the number of
remaining iterations, so index `k` is consumed when `k + 1` iterations
remain — the indices run `num_steps - init_step - 1` down to `0`. -/
def text_to_image_loop (b : ℕ) (A : StepArrays)
    (eps : ℕ → (Fin (b + 1) → ℝ) → Fin (b + 1) → ℝ)
    (gauss : ℕ → Fin (b + 1) → ℝ)
    (repeat_noise : Bool) (temperature : ℝ)
    (inpaint : Option (InpaintCtx b)) : ℕ → (Fin (b + 1) → ℝ) → Fin (b + 1) → ℝ
  | 0, xt => xt
  | k + 1, xt =>
      text_to_image_loop b A eps gauss repeat_noise temperature inpaint k
        (match inpaint with
          | none => p_sample_step b A k repeat_noise temperature xt (eps k xt) (gauss k)
          | some ctx => inpaint_blend b A k ctx
              (p_sample_step b A k repeat_noise temperature xt (eps k xt) (gauss k)))

/-- The update exactly as the specification words it, with `alpha_sqrt[i]`
dividing `pred_x0` and `noise` already selected:
`pred_x0 = (x_t - guided_noise * sqrt_one_minus_alpha[i]) / alpha_sqrt[i]`,
`dir_xt = guided_noise * sqrt(1 - alpha_prev[i] - sigma[i]^2)`,
`x_{t-1} = sqrt(alpha_prev[i]) * pred_x0 + dir_xt + sigma[i] * temperature * noise`. -/
def ddimStepSpecFormula (alpha_sqrt alpha_prev sigma sqrt1ma temperature xt guided_noise noise : ℝ) : ℝ :=
  Real.sqrt alpha_prev * ((xt - guided_noise * sqrt1ma) / alpha_sqrt)
    + guided_noise * Real.sqrt (1 - alpha_prev - sigma ^ 2)
    + sigma * temperature * noise

/-! ### C1: every consumed index computes the DDIM update formula -/

/-- C1 (confirmed): whenever the non-inpaint loop consumes index `k`, the next
latent is exactly the specification's formula, elementwise over the batch:
noise is 0 when `sigma[k] = 0`, one shared draw `gauss k 0` when
`repeat_noise`, and the per-element draw otherwise; `temperature` multiplies
only the stochastic term.  The hypothesis records that the stored
`ddim_alpha_sqrt` array is the square root of `ddim_alpha`, which the builder
guarantees (line 109), since line 171 recomputes `alpha ** 0.5` instead of
reading the stored array. -/
theorem C1_ddim_step_formula (b : ℕ) (A : StepArrays)
    (eps : ℕ → (Fin (b + 1) → ℝ) → Fin (b + 1) → ℝ) (gauss : ℕ → Fin (b + 1) → ℝ)
    (repeat_noise : Bool) (temperature : ℝ) (k : ℕ) (xt : Fin (b + 1) → ℝ)
    (hsq : ∀ i, A.alpha_sqrt i = Real.sqrt (A.alpha i)) :
    text_to_image_loop b A eps gauss repeat_noise temperature none (k + 1) xt
      = text_to_image_loop b A eps gauss repeat_noise temperature none k (fun j =>
          ddimStepSpecFormula (A.alpha_sqrt k) (A.alpha_prev k) (A.sigma k)
            (A.sqrt_one_minus_alpha k) temperature (xt j) (eps k xt j)
            (if A.sigma k = 0 then 0
              else if repeat_noise then gauss k 0 else gauss k j)) := by
  have hstep : text_to_image_loop b A eps gauss repeat_noise temperature none (k + 1) xt
      = text_to_image_loop b A eps gauss repeat_noise temperature none k
          (p_sample_step b A k repeat_noise temperature xt (eps k xt) (gauss k)) := rfl
  rw [hstep]
  funext j
  unfold p_sample_step get_x_prev_and_pred_x0 ddimStepSpecFormula
  rw [hsq k]

/-- Constant schedule arrays used to instantiate loop theorems concretely. -/
def constArrays : StepArrays where
  alpha := fun _ => 1
  alpha_prev := fun _ => 1
  sigma := fun _ => 0
  alpha_sqrt := fun _ => 1
  sqrt_one_minus_alpha := fun _ => 0

/-- Witness for C1 at a concrete instantiation. -/
theorem C1_ddim_step_formula_witness :
    (∀ i, constArrays.alpha_sqrt i = Real.sqrt (constArrays.alpha i)) ∧
    text_to_image_loop 0 constArrays (fun _ _ _ => 0) (fun _ _ => 0) false 1 none 1 (fun _ => 0)
      = text_to_image_loop 0 constArrays (fun _ _ _ => 0) (fun _ _ => 0) false 1 none 0 (fun j =>
          ddimStepSpecFormula (constArrays.alpha_sqrt 0) (constArrays.alpha_prev 0)
            (constArrays.sigma 0) (constArrays.sqrt_one_minus_alpha 0) 1
            ((fun (_ : Fin 1) => (0:ℝ)) j) ((fun _ _ _ => (0:ℝ)) 0 (fun (_ : Fin 1) => (0:ℝ)) j)
            (if constArrays.sigma 0 = 0 then 0
              else if false then (fun _ (_ : Fin 1) => (0:ℝ)) 0 0
              else (fun _ (_ : Fin 1) => (0:ℝ)) 0 j)) := by
  have hsq : ∀ i, constArrays.alpha_sqrt i = Real.sqrt (constArrays.alpha i) := by
    intro i
    show (1:ℝ) = Real.sqrt 1
    rw [Real.sqrt_one]
  exact ⟨hsq, C1_ddim_step_formula 0 constArrays (fun _ _ _ => 0) (fun _ _ => 0)
    false 1 0 (fun _ => 0) hsq⟩

/-! ### C4: the inpaint mask blend -/

/-- C4 (corrected): with the all-ZEROS mask, the inpaint-mode loop returns
exactly the plain (non-inpaint) trajectory; the code keeps the noised
original where the mask is 1, so the identity mask for inpainting is 0,
not the all-ones mask the claim states. -/
theorem C4_zero_mask_identity (b : ℕ) (A : StepArrays)
    (eps : ℕ → (Fin (b + 1) → ℝ) → Fin (b + 1) → ℝ) (gauss : ℕ → Fin (b + 1) → ℝ)
    (repeat_noise : Bool) (temperature : ℝ) (lat noi : Fin (b + 1) → ℝ) :
    ∀ (k : ℕ) (xt : Fin (b + 1) → ℝ),
      text_to_image_loop b A eps gauss repeat_noise temperature
          (some ⟨lat, noi, fun _ => 0⟩) k xt
        = text_to_image_loop b A eps gauss repeat_noise temperature none k xt := by
  intro k
  induction k with
  | zero => intro xt; rfl
  | succ n ih =>
    intro xt
    have hstep1 : text_to_image_loop b A eps gauss repeat_noise temperature
        (some ⟨lat, noi, fun _ => 0⟩) (n + 1) xt
        = text_to_image_loop b A eps gauss repeat_noise temperature
            (some ⟨lat, noi, fun _ => 0⟩) n
            (inpaint_blend b A n ⟨lat, noi, fun _ => 0⟩
              (p_sample_step b A n repeat_noise temperature xt (eps n xt) (gauss n))) := rfl
    have hstep2 : text_to_image_loop b A eps gauss repeat_noise temperature none (n + 1) xt
        = text_to_image_loop b A eps gauss repeat_noise temperature none n
            (p_sample_step b A n repeat_noise temperature xt (eps n xt) (gauss n)) := rfl
    rw [hstep1, hstep2, ih]
    funext j
    unfold inpaint_blend
    norm_num

/-- Counterexample to C4 as stated: with the all-ONES mask the inpaint run
returns the forward-noised original (here 5), while the identical call
without inpainting returns 0 — the mask does change the trajectory. -/
theorem C4_ones_mask_counterexample :
    text_to_image_loop 0 constArrays (fun _ _ _ => 0) (fun _ _ => 0) false 1
        (some ⟨fun _ => 5, fun _ => 0, fun _ => 1⟩) 1 (fun _ => 0) 0 = 5 ∧
    text_to_image_loop 0 constArrays (fun _ _ _ => 0) (fun _ _ => 0) false 1
        none 1 (fun _ => 0) 0 = 0 ∧
    (5:ℝ) ≠ 0 := by
  refine ⟨?_, ?_, by norm_num⟩
  · show inpaint_blend 0 constArrays 0 ⟨fun _ => 5, fun _ => 0, fun _ => 1⟩
      (p_sample_step 0 constArrays 0 false 1 (fun _ => 0) (fun _ => 0) (fun _ => 0)) 0 = 5
    unfold inpaint_blend p_sample_step get_x_prev_and_pred_x0 constArrays
    norm_num
  · show p_sample_step 0 constArrays 0 false 1 (fun _ => 0) (fun _ => 0) (fun _ => 0) 0 = 0
    unfold p_sample_step get_x_prev_and_pred_x0 constArrays
    norm_num

/-! ### C6: the unconditional-embedding cache (lines 58, 142-145) -/

/-- State of the two attributes involved in the unconditional-embedding
cache: line 58 initializes `self.uncond_prompt = None`; lines 142-145 test
`self.uncond_prompt is None` but assign only `self.uncond_token`. -/
structure UncondCacheState where
  uncond_prompt : Option ℕ
  uncond_token : Option ℕ

/-- Fresh instance state after `__init__` (line 58). -/
def initUncondCacheState : UncondCacheState := ⟨none, none⟩

/-- Lines 142-145 of one `text_to_image` call: when the guard
`self.uncond_prompt is None` holds, the empty prompt is tokenized and encoded
by the clip model (one collaborator computation, counted by the second
component) and the result is stored in `self.uncond_token`;
`self.uncond_prompt` itself is never assigned. -/
def computeUncondStep (encodeEmpty : ℕ) (s : UncondCacheState) : UncondCacheState × ℕ :=
  if s.uncond_prompt = none then ({ s with uncond_token := some encodeEmpty }, 1) else (s, 0)

/-- Cache state and total number of empty-prompt encodings after `n`
successive sampling calls on one instance. -/
def uncondComputations (encodeEmpty : ℕ) : ℕ → UncondCacheState × ℕ
  | 0 => (initUncondCacheState, 0)
  | n + 1 =>
      ((computeUncondStep encodeEmpty (uncondComputations encodeEmpty n).1).1,
        (uncondComputations encodeEmpty n).2
          + (computeUncondStep encodeEmpty (uncondComputations encodeEmpty n).1).2)

/-- C6 (code bug): the guard tests `uncond_prompt`, which no sampling call
ever assigns, so every one of `n` calls recomputes the empty-prompt
embedding: the computation count is `n`, not at most 1. -/
theorem C6_uncond_recomputed_every_call (encodeEmpty : ℕ) (n : ℕ) :
    (uncondComputations encodeEmpty n).1.uncond_prompt = none ∧
    (uncondComputations encodeEmpty n).2 = n := by
  induction n with
  | zero => exact ⟨rfl, rfl⟩
  | succ m ih =>
    unfold uncondComputations computeUncondStep
    rw [if_pos ih.1]
    exact ⟨ih.1, by rw [ih.2]⟩

/-! ### C8: the fractional inpaint box mask (lines 246-249) -/

/-- Lines 246-249 of the source (channels_last): the box fractions are scaled
by the PIXEL image height/width (`np.array(inpaint_mask) * [height, width,`
`height, width]`), truncated to int64, and used to slice a zero array of the
latent shape; `(i, j)` below are latent spatial coordinates, so slice bounds
beyond the latent extent clamp to an empty region. -/
def inpaint_box_mask (height width : ℕ) (top left bottom right : ℚ) (i j : ℕ) : ℚ :=
  if (⌊top * (height:ℚ)⌋).toNat ≤ i ∧ i < (⌊bottom * (height:ℚ)⌋).toNat
      ∧ (⌊left * (width:ℚ)⌋).toNat ≤ j ∧ j < (⌊right * (width:ℚ)⌋).toNat
  then 1 else 0

/-- Modelled from the spec: the mask C8 describes, a binary rectangle over
the latent spatial extent `lh × lw` at the given fractions of that extent. -/
def claimed_box_mask (lh lw : ℕ) (top left bottom right : ℚ) (i j : ℕ) : ℚ :=
  if (⌊top * (lh:ℚ)⌋).toNat ≤ i ∧ i < (⌊bottom * (lh:ℚ)⌋).toNat
      ∧ (⌊left * (lw:ℚ)⌋).toNat ≤ j ∧ j < (⌊right * (lw:ℚ)⌋).toNat
  then 1 else 0

/-- C8 (code bug): for a 512×512 image (latent extent 64×64) and the default
box `[0.5, 0, 1, 1]`, the code's mask is 0 on the whole latent (the slice
starts at row 256 ≥ 64), while the claimed latent-space rectangle marks the
bottom half (rows 32-63) with 1. -/
theorem C8_box_mask_scaled_by_image_dims :
    inpaint_box_mask 512 512 (1/2) 0 1 1 32 0 = 0 ∧
    inpaint_box_mask 512 512 (1/2) 0 1 1 63 63 = 0 ∧
    claimed_box_mask 64 64 (1/2) 0 1 1 32 0 = 1 ∧
    claimed_box_mask 64 64 (1/2) 0 1 1 63 63 = 1 ∧
    claimed_box_mask 64 64 (1/2) 0 1 1 31 0 = 0 := by
  refine ⟨?_, ?_, ?_, ?_, ?_⟩ <;> norm_num [inpaint_box_mask, claimed_box_mask]

/-! ### C10: `init_x0` overrides `batch_size` (lines 135-149) -/

/-- Line 135 of the source:
`batch_size = batch_size if init_x0 is None else init_x0.shape[0]`. -/
def effective_batch_size (batch_size : ℕ) (init_x0_batch : Option ℕ) : ℕ :=
  match init_x0_batch with
  | none => batch_size
  | some b0 => b0

/-- Lines 137-138 (channels_last):
`target_shape = [batch_size, image_shape[0] // 8, image_shape[1] // 8, c]`. -/
def target_shape (batch_size : ℕ) (init_x0_batch : Option ℕ) (h w c : ℕ) : List ℕ :=
  [effective_batch_size batch_size init_x0_batch, h / 8, w / 8, c]

/-- Line 149: `functional.concat([self.uncond_token] * batch_size`
`+ [cond_token] * batch_size, axis=0)`. -/
def uncond_cond_prompt {E : Type} (batch_size : ℕ) (init_x0_batch : Option ℕ)
    (uncond cond : E) : List E :=
  List.replicate (effective_batch_size batch_size init_x0_batch) uncond
    ++ List.replicate (effective_batch_size batch_size init_x0_batch) cond

/-- C10 (confirmed): with `init_x0` given (leading dimension `b0`), the
`batch_size` argument is ignored — the latent target shape and the duplicated
conditioning are identical for any two argument values, their batch dimension
is `b0`, and the conditioning batch is `2 * b0`. -/
theorem C10_init_x0_overrides_batch_size {E : Type} (bs bs' b0 h w c : ℕ)
    (uncond cond : E) :
    effective_batch_size bs (some b0) = b0 ∧
    target_shape bs (some b0) h w c = target_shape bs' (some b0) h w c ∧
    (target_shape bs (some b0) h w c).get? 0 = some b0 ∧
    uncond_cond_prompt bs (some b0) uncond cond
      = uncond_cond_prompt bs' (some b0) uncond cond ∧
    (uncond_cond_prompt bs (some b0) uncond cond).length = 2 * b0 := by
  refine ⟨rfl, rfl, rfl, rfl, ?_⟩
  simp [uncond_cond_prompt, effective_batch_size]
  omega
